import Mathlib

/-!
# Verification of the tools-inventory backend core

Shallow embedding of the query-normalization / criteria-building logic and the
tool-record validation pipeline of the inventory backend (`src/index.js`, final
draft, together with its helpers).  JavaScript objects are modelled as Lean
structures whose `Option`-typed fields record whether the corresponding key is
present; JS falsiness of the request fields is modelled explicitly; the MongoDB
collections are lists of documents; the regular expressions the code builds
with `new RegExp('^\\s*' + escape(t) + '\\s*$', 'i')` are given semantics by a
lexer for the pattern subset the program can produce (escaped literals, the
class `\s`, the quantifiers `*`, `+`, `?`, and the `^...$` anchors) compiled
into Mathlib regular expressions; the `i` flag is modelled by ASCII
case-folding of both the pattern literals and the subject.
-/

/-- The whitespace characters recognised by the `\s` class of the embedded
regular-expression subset (ASCII part of the JS `\s` class), also used for
the model of `String.prototype.trim`. -/
def isWsChar (c : Char) : Bool :=
  c == ' ' || c == '\t' || c == '\n' || c == '\r' || c == '\x0b' || c == '\x0c'

/-- ASCII case folding: the model of the `i` regex flag and of
`String.prototype.toLowerCase` as the program applies it (tool names and
queries are ASCII in this data model). -/
def lowerChar (c : Char) : Char :=
  if 65 ≤ c.toNat ∧ c.toNat ≤ 90 then Char.ofNat (c.toNat + 32) else c

theorem char_toNat_ofNat (n : Nat) (h : n.isValidChar) : (Char.ofNat n).toNat = n := by
  unfold Char.ofNat
  rw [dif_pos h]
  unfold Char.ofNatAux Char.toNat
  simp only [UInt32.toNat]
  show (BitVec.ofNatLt n _).toNat = n
  simp [BitVec.toNat_ofNatLt]

theorem toNat_lowerChar (c : Char) :
    (lowerChar c).toNat = if 65 ≤ c.toNat ∧ c.toNat ≤ 90 then c.toNat + 32 else c.toNat := by
  unfold lowerChar
  split_ifs with h
  · exact char_toNat_ofNat _ (Or.inl (by omega))
  · rfl

theorem isWsChar_iff (c : Char) :
    isWsChar c = true ↔
      c.toNat = 32 ∨ c.toNat = 9 ∨ c.toNat = 10 ∨ c.toNat = 13 ∨
      c.toNat = 11 ∨ c.toNat = 12 := by
  have hinj : ∀ d : Char, c.toNat = d.toNat → c = d := by
    intro d h
    exact Char.ext (UInt32.ext h)
  unfold isWsChar
  simp only [Bool.or_eq_true, beq_iff_eq]
  constructor
  · rintro (((((h | h) | h) | h) | h) | h) <;> subst h <;> decide
  · rintro (h | h | h | h | h | h)
    · cases hinj ' ' h; decide
    · cases hinj '\t' h; decide
    · cases hinj '\n' h; decide
    · cases hinj '\r' h; decide
    · cases hinj '\x0b' h; decide
    · cases hinj '\x0c' h; decide

theorem isWsChar_lowerChar (c : Char) : isWsChar (lowerChar c) = isWsChar c := by
  by_cases h : 65 ≤ c.toNat ∧ c.toNat ≤ 90
  · have h1 : isWsChar (lowerChar c) = false := by
      rw [Bool.eq_false_iff, Ne, isWsChar_iff, toNat_lowerChar, if_pos h]
      omega
    have h2 : isWsChar c = false := by
      rw [Bool.eq_false_iff, Ne, isWsChar_iff]
      omega
    rw [h1, h2]
  · unfold lowerChar
    rw [if_neg h]

/-- `String.prototype.toLowerCase` (ASCII model). -/
def jsToLower (s : String) : String := ⟨s.data.map lowerChar⟩

/-- Trimming of leading and trailing whitespace on character lists. -/
def trimL (l : List Char) : List Char :=
  ((l.dropWhile isWsChar).reverse.dropWhile isWsChar).reverse

/-- `String.prototype.trim` (model). -/
def jsTrim (s : String) : String := ⟨trimL s.data⟩

/-- `hay.includes(needle)`: substring containment, as used for the keyword
fallback of the AI search path. -/
def jsIncludes (hay needle : String) : Bool :=
  hay.data.tails.any (fun t => List.isPrefixOf needle.data t)

/-! ## The escaping utility

`const escape = s => s.replace(/[.*+?^${}()|[\]\\]/g, '\\$&');`
(appearing verbatim in `GET /tools` and `GET /ai/tools`). -/

/-- The fourteen characters escaped by the utility. -/
def metaChars : List Char :=
  ['.', '*', '+', '?', '^', '$', '\x7b', '\x7d', '(', ')', '|', '[', ']', '\\']

/-- Character-list form of the escaping utility: every regex metacharacter is
preceded by a backslash. -/
def escapeChars : List Char → List Char
  | [] => []
  | c :: cs =>
    if metaChars.contains c then '\\' :: c :: escapeChars cs
    else c :: escapeChars cs

/-- The escaping utility `escape` of the source. -/
def escape (s : String) : String := ⟨escapeChars s.data⟩

/-! ## Semantics of the produced regular expressions

The program only ever builds patterns of the shape
`'^\\s*' + escape(t) + '\\s*$'` with the `i` flag.  We give semantics to the
pattern-language fragment these strings live in: `^`/`$` anchors around a body
made of escaped literal characters, the `\s` class, ordinary (non-meta)
literal characters, and the postfix quantifiers `*`, `+`, `?`.  Patterns
outside the fragment (unescaped `(`, `[`, `|`, ...) are rejected by the lexer,
so a test against them is modelled as `false`; no pattern the program produces
is ever rejected (proved below). -/

inductive Tok where
  | tchr (c : Char)
  | tws
  | tstar
  | tplus
  | topt
deriving DecidableEq

/-- Lexer for the pattern body: an escaped pair `\c` is a literal (or the
whitespace class for `\s`); `*`, `+`, `?` are quantifier tokens; any other
unescaped metacharacter is outside the supported fragment. -/
def lex : List Char → Option (List Tok)
  | [] => some []
  | c :: rest =>
    if c == '\\' then
      match rest with
      | [] => none
      | d :: rest2 =>
        (lex rest2).map (fun ts => (if d == 's' then Tok.tws else Tok.tchr d) :: ts)
    else if c == '*' then (lex rest).map (fun ts => Tok.tstar :: ts)
    else if c == '+' then (lex rest).map (fun ts => Tok.tplus :: ts)
    else if c == '?' then (lex rest).map (fun ts => Tok.topt :: ts)
    else if metaChars.contains c then none
    else (lex rest).map (fun ts => Tok.tchr c :: ts)

inductive JAtom where
  | jchr (c : Char)
  | jws
deriving DecidableEq

inductive JQuant where
  | qone
  | qstar
  | qplus
  | qopt
deriving DecidableEq

/-- Attach postfix quantifiers to their atoms; a quantifier with no preceding
atom is a syntax error. -/
def group : List Tok → Option (List (JAtom × JQuant))
  | [] => some []
  | Tok.tstar :: _ => none
  | Tok.tplus :: _ => none
  | Tok.topt :: _ => none
  | Tok.tws :: rest =>
    match rest with
    | Tok.tstar :: r2 => (group r2).map (fun l => (JAtom.jws, JQuant.qstar) :: l)
    | Tok.tplus :: r2 => (group r2).map (fun l => (JAtom.jws, JQuant.qplus) :: l)
    | Tok.topt :: r2 => (group r2).map (fun l => (JAtom.jws, JQuant.qopt) :: l)
    | r => (group r).map (fun l => (JAtom.jws, JQuant.qone) :: l)
  | Tok.tchr c :: rest =>
    match rest with
    | Tok.tstar :: r2 => (group r2).map (fun l => (JAtom.jchr c, JQuant.qstar) :: l)
    | Tok.tplus :: r2 => (group r2).map (fun l => (JAtom.jchr c, JQuant.qplus) :: l)
    | Tok.topt :: r2 => (group r2).map (fun l => (JAtom.jchr c, JQuant.qopt) :: l)
    | r => (group r).map (fun l => (JAtom.jchr c, JQuant.qone) :: l)

/-- The `\s` class as a Mathlib regular expression (its six ASCII members). -/
def wsReg : RegularExpression Char :=
  RegularExpression.char ' ' + RegularExpression.char '\t' +
  RegularExpression.char '\n' + RegularExpression.char '\r' +
  RegularExpression.char '\x0b' + RegularExpression.char '\x0c'

/-- An atom compiles to a single-character expression over the case-folded
alphabet (the subject is case-folded before matching, modelling flag `i`). -/
def atomReg : JAtom → RegularExpression Char
  | JAtom.jchr c => RegularExpression.char (lowerChar c)
  | JAtom.jws => wsReg

def quantReg : JQuant → RegularExpression Char → RegularExpression Char
  | JQuant.qone, r => r
  | JQuant.qstar, r => r.star
  | JQuant.qplus, r => r * r.star
  | JQuant.qopt, r => r + 1

def compileAtoms : List (JAtom × JQuant) → RegularExpression Char
  | [] => 1
  | (a, q) :: rest => quantReg q (atomReg a) * compileAtoms rest

/-- Parse a full pattern: it must be anchored as `^...$` (the only form the
program produces), and its body must lex and group in the supported
fragment. -/
def parsePattern (p : String) : Option (RegularExpression Char) :=
  match p.data with
  | [] => none
  | c :: rest =>
    if c == '^' then
      match rest.getLast? with
      | none => none
      | some d =>
        if d == '$' then
          match lex rest.dropLast with
          | none => none
          | some ts =>
            match group ts with
            | none => none
            | some atoms => some (compileAtoms atoms)
        else none
    else none

/-- `new RegExp(p, 'i').test(s)` for the supported fragment: the subject is
case-folded and matched whole (the pattern carries its own `^`/`$`
anchors). -/
def jsTest (p s : String) : Bool :=
  match parsePattern p with
  | some r => r.rmatch (s.data.map lowerChar)
  | none => false

/-- The anchored whitespace-tolerant pattern string the program builds from a
literal: `'^\\s*' + escape(t) + '\\s*$'`. -/
def anchoredPattern (t : String) : String :=
  "^\\s*" ++ escape t ++ "\\s*$"

/-- The matcher the program uses for exact tag/tool-name comparison:
the anchored pattern for `t`, tested case-insensitively against `s`. -/
def anchoredTest (t s : String) : Bool :=
  jsTest (anchoredPattern t) s

/-! ### Characterization of the anchored patterns -/

/-- Reference form of the compiled anchored pattern: optional whitespace,
the case-folded literal, optional whitespace. -/
def litSeq : List Char → RegularExpression Char → RegularExpression Char
  | [], k => k
  | c :: cs, k => RegularExpression.char (lowerChar c) * litSeq cs k

def anchoredReg (t : String) : RegularExpression Char :=
  wsReg.star * litSeq t.data (wsReg.star * 1)

theorem lex_escape (u rest : List Char) :
    lex (escapeChars u ++ rest) = (lex rest).map (fun ts => u.map Tok.tchr ++ ts) := by
  induction u with
  | nil =>
    simp [escapeChars]
  | cons c cs ih =>
    by_cases hc : metaChars.contains c
    · have hs : (c == 's') = false := by
        rcases eq_or_ne c 's' with h | h
        · subst h
          exact absurd hc (by decide)
        · exact beq_eq_false_iff_ne.mpr h
      rw [escapeChars, if_pos hc]
      show lex ('\\' :: c :: (escapeChars cs ++ rest)) = _
      rw [lex.eq_def]
      dsimp only
      simp only [beq_self_eq_true, if_true, hs]
      rw [ih]
      cases lex rest <;> simp
    · have h1 : (c == '\\') = false := by
        rcases eq_or_ne c '\\' with h | h
        · subst h
          exact absurd (by decide) hc
        · exact beq_eq_false_iff_ne.mpr h
      have h2 : (c == '*') = false := by
        rcases eq_or_ne c '*' with h | h
        · subst h
          exact absurd (by decide) hc
        · exact beq_eq_false_iff_ne.mpr h
      have h3 : (c == '+') = false := by
        rcases eq_or_ne c '?' with h | h
        · rcases eq_or_ne c '+' with h' | h'
          · subst h'
            exact absurd (by decide) hc
          · exact beq_eq_false_iff_ne.mpr h'
        · rcases eq_or_ne c '+' with h' | h'
          · subst h'
            exact absurd (by decide) hc
          · exact beq_eq_false_iff_ne.mpr h'
      have h4 : (c == '?') = false := by
        rcases eq_or_ne c '?' with h | h
        · subst h
          exact absurd (by decide) hc
        · exact beq_eq_false_iff_ne.mpr h
      have hc' : metaChars.contains c = false := by
        simpa using hc
      rw [escapeChars, if_neg hc]
      show lex (c :: (escapeChars cs ++ rest)) = _
      rw [lex.eq_def]
      dsimp only
      simp only [h1, h2, h3, h4, hc', Bool.false_eq_true, if_false]
      rw [ih]
      cases lex rest <;> simp

def headNotQuant : List Tok → Bool
  | Tok.tstar :: _ => false
  | Tok.tplus :: _ => false
  | Tok.topt :: _ => false
  | _ => true

theorem group_chrs (u : List Char) (ts : List Tok) (h : headNotQuant ts = true) :
    group (u.map Tok.tchr ++ ts) =
      (group ts).map (fun l => u.map (fun c => (JAtom.jchr c, JQuant.qone)) ++ l) := by
  induction u with
  | nil =>
    simp
  | cons c cs ih =>
    cases cs with
    | nil =>
      cases ts with
      | nil =>
        simp [group]
      | cons t ts' =>
        cases t <;> simp_all [group, headNotQuant]
    | cons c' cs' =>
      simp only [List.map_cons, List.cons_append] at ih ⊢
      rw [group] <;> try (intro r2 hh; simp at hh)
      rw [ih]
      cases group ts <;> simp

theorem compileAtoms_chrs (u : List Char) (ys : List (JAtom × JQuant)) :
    compileAtoms (u.map (fun c => (JAtom.jchr c, JQuant.qone)) ++ ys) =
      litSeq u (compileAtoms ys) := by
  induction u with
  | nil => rfl
  | cons c cs ih => simp [compileAtoms, litSeq, quantReg, atomReg, ih]

theorem lex_ws_star (l : List Char) :
    lex ('\\' :: 's' :: '*' :: l) = (lex l).map (fun ts => Tok.tws :: Tok.tstar :: ts) := by
  rw [lex.eq_def]
  simp only [beq_self_eq_true, if_true]
  rw [lex.eq_def]
  simp only [show ('*' == '\\') = false from rfl, show ('*' == '*') = true from rfl,
    Bool.false_eq_true, if_false, if_true]
  cases lex l <;> rfl

theorem group_ws_star (ts : List Tok) :
    group (Tok.tws :: Tok.tstar :: ts) =
      (group ts).map (fun l => (JAtom.jws, JQuant.qstar) :: l) := rfl

/-- The pattern the program builds from any literal `t` parses inside the
supported fragment, to the reference form. -/
theorem parse_anchoredPattern (t : String) :
    parsePattern (anchoredPattern t) = some (anchoredReg t) := by
  have hdata : (anchoredPattern t).data =
      '^' :: ((('\\' :: 's' :: '*' :: escapeChars t.data) ++ ['\\', 's', '*']) ++ ['$']) := by
    show (("^\\s*" ++ escape t) ++ "\\s*$").data = _
    rw [String.data_append, String.data_append]
    show ['^', '\\', 's', '*'] ++ escapeChars t.data ++ ['\\', 's', '*', '$'] = _
    simp
  rw [parsePattern.eq_def, hdata]
  dsimp only
  simp only [beq_self_eq_true, if_true]
  rw [List.getLast?_concat]
  dsimp only
  simp only [beq_self_eq_true, if_true]
  rw [List.dropLast_concat]
  simp only [List.cons_append, List.append_assoc]
  rw [lex_ws_star, lex_escape]
  have hsuffix : lex ['\\', 's', '*'] = some [Tok.tws, Tok.tstar] := rfl
  rw [hsuffix]
  simp only [Option.map_some']
  rw [group_ws_star, group_chrs _ _ (by rfl)]
  have hg2 : group [Tok.tws, Tok.tstar] = some [(JAtom.jws, JQuant.qstar)] := rfl
  rw [hg2]
  simp only [Option.map_some']
  rw [compileAtoms, compileAtoms_chrs]
  rfl

theorem isWsChar_eq_iff (c : Char) :
    isWsChar c = true ↔
      c = ' ' ∨ c = '\t' ∨ c = '\n' ∨ c = '\r' ∨ c = '\x0b' ∨ c = '\x0c' := by
  unfold isWsChar
  simp [Bool.or_eq_true, beq_iff_eq, or_assoc]

theorem wsReg_rmatch (x : List Char) :
    wsReg.rmatch x = true ↔ ∃ c, x = [c] ∧ isWsChar c = true := by
  unfold wsReg
  simp only [RegularExpression.add_rmatch_iff, RegularExpression.char_rmatch_iff]
  constructor
  · rintro (((((h | h) | h) | h) | h) | h) <;> subst h <;>
      exact ⟨_, rfl, by decide⟩
  · rintro ⟨c, rfl, hc⟩
    rcases (isWsChar_eq_iff c).mp hc with h | h | h | h | h | h <;> subst h <;> simp

theorem flatten_map_singleton (x : List Char) :
    (x.map (fun c => [c])).flatten = x := by
  induction x with
  | nil => rfl
  | cons c cs ih => simp [ih]

theorem star_wsReg_rmatch (x : List Char) :
    wsReg.star.rmatch x = true ↔ ∀ c ∈ x, isWsChar c = true := by
  rw [RegularExpression.star_rmatch_iff]
  constructor
  · rintro ⟨S, rfl, hS⟩ c hc
    rw [List.mem_flatten] at hc
    obtain ⟨t, ht, hct⟩ := hc
    obtain ⟨-, hm⟩ := hS t ht
    obtain ⟨d, rfl, hd⟩ := (wsReg_rmatch t).mp hm
    rw [List.mem_singleton] at hct
    exact hct ▸ hd
  · intro h
    refine ⟨x.map (fun c => [c]), (flatten_map_singleton x).symm, ?_⟩
    intro t ht
    rw [List.mem_map] at ht
    obtain ⟨c, hc, rfl⟩ := ht
    exact ⟨by simp, (wsReg_rmatch [c]).mpr ⟨c, rfl, h c hc⟩⟩

theorem litSeq_rmatch (u : List Char) (k : RegularExpression Char) (x : List Char) :
    (litSeq u k).rmatch x = true ↔
      ∃ r, x = u.map lowerChar ++ r ∧ k.rmatch r = true := by
  induction u generalizing x with
  | nil =>
    simp [litSeq]
  | cons c cs ih =>
    rw [litSeq, RegularExpression.mul_rmatch_iff]
    constructor
    · rintro ⟨t, v, rfl, ht, hv⟩
      rw [RegularExpression.char_rmatch_iff] at ht
      subst ht
      obtain ⟨r, rfl, hr⟩ := (ih v).mp hv
      exact ⟨r, by simp, hr⟩
    · rintro ⟨r, rfl, hr⟩
      refine ⟨[lowerChar c], cs.map lowerChar ++ r, by simp, ?_, ?_⟩
      · rw [RegularExpression.char_rmatch_iff]
      · exact (ih _).mpr ⟨r, rfl, hr⟩

/-- What the program's anchored case-insensitive pattern for a literal `t`
matches: exactly the subjects consisting of the literal (compared
case-insensitively) surrounded by optional whitespace. -/
theorem anchoredTest_iff (t s : String) :
    anchoredTest t s = true ↔
      ∃ pre mid post, s.data = pre ++ mid ++ post ∧
        (∀ c ∈ pre, isWsChar c = true) ∧ (∀ c ∈ post, isWsChar c = true) ∧
        mid.map lowerChar = t.data.map lowerChar := by
  unfold anchoredTest jsTest
  rw [parse_anchoredPattern]
  show (anchoredReg t).rmatch (s.data.map lowerChar) = true ↔ _
  unfold anchoredReg
  rw [RegularExpression.mul_rmatch_iff]
  constructor
  · rintro ⟨a, b, hsplit, ha, hb⟩
    rw [star_wsReg_rmatch] at ha
    rw [litSeq_rmatch] at hb
    obtain ⟨r, rfl, hr⟩ := hb
    rw [RegularExpression.mul_rmatch_iff] at hr
    obtain ⟨p, q, rfl, hp, hq⟩ := hr
    rw [star_wsReg_rmatch] at hp
    rw [RegularExpression.one_rmatch_iff] at hq
    subst hq
    rw [List.append_nil] at hsplit
    obtain ⟨l1, l2, hs2, hl1, hl2⟩ := List.append_eq_map_iff.mp hsplit.symm
    obtain ⟨m1, m2, hs3, hm1, hm2⟩ := List.append_eq_map_iff.mp hl2.symm
    refine ⟨l1, m1, m2, ?_, ?_, ?_, hm1⟩
    · rw [hs2, hs3, List.append_assoc]
    · intro c hc
      have := ha (lowerChar c) (hl1 ▸ List.mem_map_of_mem lowerChar hc)
      rwa [isWsChar_lowerChar] at this
    · intro c hc
      have := hp (lowerChar c) (hm2 ▸ List.mem_map_of_mem lowerChar hc)
      rwa [isWsChar_lowerChar] at this
  · rintro ⟨pre, mid, post, hs, hpre, hpost, hmid⟩
    refine ⟨pre.map lowerChar, mid.map lowerChar ++ post.map lowerChar, ?_, ?_, ?_⟩
    · rw [hs]
      simp [List.map_append, List.append_assoc]
    · rw [star_wsReg_rmatch]
      intro c hc
      rw [List.mem_map] at hc
      obtain ⟨d, hd, rfl⟩ := hc
      rw [isWsChar_lowerChar]
      exact hpre d hd
    · rw [litSeq_rmatch]
      refine ⟨post.map lowerChar, by rw [hmid], ?_⟩
      rw [RegularExpression.mul_rmatch_iff]
      refine ⟨post.map lowerChar, [], by simp, ?_, ?_⟩
      · rw [star_wsReg_rmatch]
        intro c hc
        rw [List.mem_map] at hc
        obtain ⟨d, hd, rfl⟩ := hc
        rw [isWsChar_lowerChar]
        exact hpost d hd
      · rw [RegularExpression.one_rmatch_iff]

/-! ### Trimming lemmas -/

theorem length_dropWhile_le' (p : Char → Bool) (l : List Char) :
    (l.dropWhile p).length ≤ l.length := by
  induction l with
  | nil => simp
  | cons c cs ih =>
    rw [List.dropWhile_cons]
    split_ifs with h
    · exact Nat.le_trans ih (Nat.le_succ _)
    · simp

theorem dropWhile_ws_append (p x : List Char) (hp : ∀ c ∈ p, isWsChar c = true) :
    (p ++ x).dropWhile isWsChar = x.dropWhile isWsChar := by
  induction p with
  | nil => rfl
  | cons c cs ih =>
    rw [List.cons_append, List.dropWhile_cons, if_pos (hp c (by simp))]
    exact ih fun d hd => hp d (by simp [hd])

theorem dropWhile_ws_eq_self (x : List Char)
    (h : ∀ c, x.head? = some c → isWsChar c = false) :
    x.dropWhile isWsChar = x := by
  cases x with
  | nil => rfl
  | cons c cs =>
    rw [List.dropWhile_cons, if_neg]
    rw [h c rfl]
    simp

theorem trimL_all_ws (l : List Char) (h : ∀ c ∈ l, isWsChar c = true) : trimL l = [] := by
  unfold trimL
  have h1 : l.dropWhile isWsChar = [] := by
    have h2 := dropWhile_ws_append l [] h
    simpa using h2
  rw [h1]
  rfl

theorem trimL_sandwich (pre mid post : List Char)
    (hpre : ∀ c ∈ pre, isWsChar c = true) (hpost : ∀ c ∈ post, isWsChar c = true)
    (hne : mid ≠ [])
    (hh : ∀ c, mid.head? = some c → isWsChar c = false)
    (hl : ∀ c, mid.getLast? = some c → isWsChar c = false) :
    trimL (pre ++ mid ++ post) = mid := by
  unfold trimL
  rw [List.append_assoc, dropWhile_ws_append _ _ hpre]
  have h1 : (mid ++ post).dropWhile isWsChar = mid ++ post := by
    apply dropWhile_ws_eq_self
    intro c hc
    cases mid with
    | nil => exact absurd rfl hne
    | cons m ms =>
      rw [List.cons_append] at hc
      simp only [List.head?_cons, Option.some_inj] at hc
      exact hc ▸ hh m rfl
  rw [h1, List.reverse_append, dropWhile_ws_append _ _ (by
    intro c hc
    rw [List.mem_reverse] at hc
    exact hpost c hc)]
  rw [dropWhile_ws_eq_self _ (by
    intro c hc
    rw [List.head?_reverse] at hc
    exact hl c hc)]
  exact List.reverse_reverse mid

theorem trimL_decomp (l : List Char) :
    ∃ pre post, l = pre ++ trimL l ++ post ∧
      (∀ c ∈ pre, isWsChar c = true) ∧ (∀ c ∈ post, isWsChar c = true) := by
  have hy : l = l.takeWhile isWsChar ++ l.dropWhile isWsChar :=
    (List.takeWhile_append_dropWhile isWsChar l).symm
  have hz : (l.dropWhile isWsChar).reverse =
      (l.dropWhile isWsChar).reverse.takeWhile isWsChar ++
        (l.dropWhile isWsChar).reverse.dropWhile isWsChar :=
    (List.takeWhile_append_dropWhile isWsChar (l.dropWhile isWsChar).reverse).symm
  have hz' : l.dropWhile isWsChar =
      ((l.dropWhile isWsChar).reverse.dropWhile isWsChar).reverse ++
        ((l.dropWhile isWsChar).reverse.takeWhile isWsChar).reverse := by
    have h2 := congrArg List.reverse hz
    rwa [List.reverse_reverse, List.reverse_append] at h2
  refine ⟨l.takeWhile isWsChar,
    ((l.dropWhile isWsChar).reverse.takeWhile isWsChar).reverse, ?_, ?_, ?_⟩
  · unfold trimL
    conv_lhs => rw [hy, hz']
    rw [List.append_assoc]
  · intro c hc
    exact List.mem_takeWhile_imp hc
  · intro c hc
    rw [List.mem_reverse] at hc
    exact List.mem_takeWhile_imp hc

theorem head_not_ws_of_trimL_eq (l : List Char) (h : trimL l = l) :
    ∀ c, l.head? = some c → isWsChar c = false := by
  intro c hc
  by_contra hw
  have hw' : isWsChar c = true := by
    cases hww : isWsChar c
    · exact absurd hww hw
    · rfl
  cases l with
  | nil => cases hc
  | cons c0 rest =>
    simp only [List.head?_cons, Option.some_inj] at hc
    rw [hc] at h
    have h1 : (c :: rest).dropWhile isWsChar = rest.dropWhile isWsChar := by
      rw [List.dropWhile_cons, if_pos hw']
    have h2 : (trimL (c :: rest)).length ≤ rest.length := by
      unfold trimL
      rw [h1, List.length_reverse]
      calc (List.dropWhile isWsChar (rest.dropWhile isWsChar).reverse).length
          ≤ (rest.dropWhile isWsChar).reverse.length := length_dropWhile_le' _ _
        _ = (rest.dropWhile isWsChar).length := List.length_reverse _
        _ ≤ rest.length := length_dropWhile_le' _ _
    rw [h] at h2
    simp at h2

theorem last_not_ws_of_trimL_eq (l : List Char) (h : trimL l = l) :
    ∀ c, l.getLast? = some c → isWsChar c = false := by
  intro c hc
  by_contra hw
  have hw' : isWsChar c = true := by
    cases hww : isWsChar c
    · exact absurd hww hw
    · rfl
  have hne : l ≠ [] := by
    intro he
    subst he
    cases hc
  cases hyn : l.dropWhile isWsChar with
  | nil =>
    have hnil : trimL l = [] := by
      unfold trimL
      rw [hyn]
      rfl
    rw [h] at hnil
    exact hne hnil
  | cons a z =>
    have hgl : (l.dropWhile isWsChar).getLast? = some c := by
      have hsplit := (List.takeWhile_append_dropWhile isWsChar l).symm
      rw [hsplit, List.getLast?_append] at hc
      cases hgy : (l.dropWhile isWsChar).getLast? with
      | none =>
        rw [List.getLast?_eq_none_iff] at hgy
        rw [hgy] at hyn
        cases hyn
      | some d =>
        rw [hgy] at hc
        simpa using hc
    have hrev : (l.dropWhile isWsChar).reverse.head? = some c := by
      rw [List.head?_reverse]
      exact hgl
    obtain ⟨z', hz'⟩ : ∃ z', (l.dropWhile isWsChar).reverse = c :: z' := by
      cases hyr : (l.dropWhile isWsChar).reverse with
      | nil =>
        rw [hyr] at hrev
        cases hrev
      | cons a' w =>
        rw [hyr] at hrev
        simp only [List.head?_cons, Option.some_inj] at hrev
        exact ⟨w, by rw [hrev]⟩
    have h2 : (trimL l).length ≤ z'.length := by
      unfold trimL
      rw [hz', List.length_reverse, List.dropWhile_cons, if_pos hw']
      exact length_dropWhile_le' _ _
    have h3 : z'.length + 1 = (l.dropWhile isWsChar).length := by
      have h4 := congrArg List.length hz'
      rw [List.length_reverse] at h4
      simp at h4
      omega
    have h4 : (l.dropWhile isWsChar).length ≤ l.length := length_dropWhile_le' _ _
    rw [h] at h2
    omega

/-- For a literal with no surrounding whitespace, the anchored pattern tests a
subject exactly by trim-and-case-fold equality. -/
theorem anchoredTest_trimmed_iff (t s : String) (ht : trimL t.data = t.data) :
    anchoredTest t s = true ↔ (trimL s.data).map lowerChar = t.data.map lowerChar := by
  rw [anchoredTest_iff]
  constructor
  · rintro ⟨pre, mid, post, hs, hpre, hpost, hmid⟩
    rcases htd : t.data with _ | ⟨t0, ts'⟩
    · rw [htd] at hmid
      simp only [List.map_nil, List.map_eq_nil_iff] at hmid
      subst hmid
      have hall : ∀ d ∈ s.data, isWsChar d = true := by
        intro d hdm
        rw [hs, List.append_nil, List.mem_append] at hdm
        rcases hdm with hdm | hdm
        · exact hpre d hdm
        · exact hpost d hdm
      rw [trimL_all_ws s.data hall]
    · rw [htd] at hmid
      rcases hmd : mid with _ | ⟨m0, ms⟩
      · rw [hmd] at hmid
        simp at hmid
      · rw [hmd] at hmid
        simp only [List.map_cons, List.cons.injEq] at hmid
        obtain ⟨hm0, hms⟩ := hmid
        have hh : ∀ d, (m0 :: ms).head? = some d → isWsChar d = false := by
          intro d hcc
          simp only [List.head?_cons, Option.some_inj] at hcc
          rw [← hcc, ← isWsChar_lowerChar m0, hm0, isWsChar_lowerChar]
          exact head_not_ws_of_trimL_eq t.data ht t0 (by rw [htd]; rfl)
        have hl : ∀ d, (m0 :: ms).getLast? = some d → isWsChar d = false := by
          intro d hcc
          have hmid' : (m0 :: ms).map lowerChar = (t0 :: ts').map lowerChar := by
            simp [hm0, hms]
          have hmap := congrArg List.getLast? hmid'
          rw [List.getLast?_map, List.getLast?_map, hcc] at hmap
          cases htl : (t0 :: ts').getLast? with
          | none =>
            rw [htl] at hmap
            simp at hmap
          | some d' =>
            rw [htl] at hmap
            simp only [Option.map_some', Option.some_inj] at hmap
            rw [← isWsChar_lowerChar d, hmap, isWsChar_lowerChar]
            exact last_not_ws_of_trimL_eq t.data ht d' (by rw [htd]; exact htl)
        have hmne : mid ≠ [] := by
          rw [hmd]
          simp
        have hh' : ∀ d, mid.head? = some d → isWsChar d = false := by
          rw [hmd]
          exact hh
        have hl' : ∀ d, mid.getLast? = some d → isWsChar d = false := by
          rw [hmd]
          exact hl
        rw [hs, trimL_sandwich pre mid post hpre hpost hmne hh' hl', hmd]
        simp [hm0, hms]
  · intro h
    obtain ⟨pre, post, hdec, hpre, hpost⟩ := trimL_decomp s.data
    exact ⟨pre, trimL s.data, post, hdec, hpre, hpost, h⟩

/-! ## Data model

Documents of the three MongoDB collections and the two historical storage
shapes for category and tags (embedded sub-document vs. bare string), as the
schema-variant eras of this repository produced them. -/

structure Spec where
  name : String
  value : String
  unit : String
deriving DecidableEq

inductive CatRepr where
  | strCat (name : String)
  | docCat (id : Nat) (name : String)
deriving DecidableEq

inductive TagRepr where
  | strTag (name : String)
  | docTag (id : Nat) (name : String)
deriving DecidableEq

def tagReprName : TagRepr → String
  | TagRepr.strTag n => n
  | TagRepr.docTag _ n => n

structure CategoryDoc where
  id : Nat
  name : String
deriving DecidableEq

structure TagDoc where
  id : Nat
  name : String
deriving DecidableEq

/-- `new Date(purchaseDate)`: the parsed-date value, keeping the raw string it
was parsed from (the model does not interpret calendar dates). -/
structure JsDate where
  raw : String
deriving DecidableEq

/-- The canonical record `validateTool` assembles (`newTool` object literal).
`Option`-typed fields model JS object-key presence: the literal defines
neither a `specifications` nor a `maintenance` key, so both are `none` in
every record it builds. -/
structure NewTool where
  name : String
  category : CatRepr
  quantity : Int
  rack : String
  status : String
  purchaseDate : JsDate
  tags : List TagRepr
  specifications : Option (List Spec)
  maintenance : Option (List String)
deriving DecidableEq

structure StoredTool where
  id : Nat
  data : NewTool
deriving DecidableEq

structure DB where
  categories : List CategoryDoc
  tags : List TagDoc
  tools : List StoredTool
deriving DecidableEq

/-- Request body of `POST /tools` / `PUT /tools/:id`.  `none` models an
absent, `null` or `undefined` key; `some` a present value.  The three
specification aliases are carried so that claims about them are statable. -/
structure ToolRequest where
  name : Option String := none
  category : Option String := none
  quantity : Option Int := none
  rack : Option String := none
  status : Option String := none
  purchaseDate : Option String := none
  tags : Option (List String) := none
  specifications : Option (List Spec) := none
  specs : Option (List Spec) := none
  specification : Option (List Spec) := none
deriving DecidableEq

/-! JS falsiness of the destructured request fields: a string field is falsy
when absent or the empty string; a number field when absent or `0`; an array
field only when absent (`![]` is `false` in JS — the empty array is truthy). -/

def falsyStr : Option String → Bool
  | none => true
  | some s => s.isEmpty

def falsyNum : Option Int → Bool
  | none => true
  | some n => n == 0

def falsyArr : Option (List String) → Bool
  | none => true
  | some _ => false

inductive VResult where
  | failure (error : String)
  | success (newTool : NewTool)
deriving DecidableEq

def VResult.isValidated : VResult → Bool
  | VResult.failure _ => false
  | VResult.success _ => true

/-- `validateTool(db, request)` of `src/index.js` (lines 268-293; the earlier
draft at lines 29-57 is behaviourally identical): truthiness check on the
seven destructured fields with the fixed message `"Missing fields"`, exact
category lookup (`"Invalid category"` when absent — no creation), tag lookup
by `$in` with a length comparison, then assembly of the `newTool` literal
with the category as a `{_id, name}` sub-document and the tags as the found
tag documents. -/
def validateTool (db : DB) (r : ToolRequest) : VResult :=
  if falsyStr r.name || falsyStr r.category || falsyNum r.quantity || falsyStr r.rack ||
      falsyStr r.status || falsyStr r.purchaseDate || falsyArr r.tags then
    VResult.failure "Missing fields"
  else
    match db.categories.find? (fun c => c.name == r.category.getD "") with
    | none => VResult.failure "Invalid category"
    | some catDoc =>
      let tagNames := r.tags.getD []
      let tagDocs := db.tags.filter (fun d => tagNames.contains d.name)
      if tagDocs.length != tagNames.length then
        VResult.failure "One or more tags is invalid"
      else
        VResult.success
          { name := r.name.getD ""
            category := CatRepr.docCat catDoc.id catDoc.name
            quantity := r.quantity.getD 0
            rack := r.rack.getD ""
            status := r.status.getD ""
            purchaseDate := ⟨r.purchaseDate.getD ""⟩
            tags := tagDocs.map (fun d => TagRepr.docTag d.id d.name)
            specifications := none
            maintenance := none }

/-! ## The write endpoints -/

inductive PostResult where
  | created (message : String) (toolId : Nat)
  | badRequest (error : String)
deriving DecidableEq

/-- Fresh `_id` for `insertOne` (any id not yet present). -/
def freshId (db : DB) : Nat := db.tools.foldl (fun m st => max m (st.id + 1)) 0

/-- `POST /tools`: validate, then insert; validation failure responds 400 with
the error and writes nothing. -/
def postTool (db : DB) (r : ToolRequest) : PostResult × DB :=
  match validateTool db r with
  | VResult.failure e => (PostResult.badRequest e, db)
  | VResult.success t =>
    (PostResult.created "Tool created" (freshId db),
      { db with tools := db.tools ++ [{ id := freshId db, data := t }] })

inductive PutResult where
  | ok (message : String)
  | badRequest (error : String)
deriving DecidableEq

/-- `updateOne({_id}, {$set: newTool})`: replaces the data of the first (only)
document with the id; no document matched leaves the collection unchanged. -/
def updateFirst : List StoredTool → Nat → NewTool → List StoredTool
  | [], _, _ => []
  | st :: rest, i, t =>
    if st.id == i then { st with data := t } :: rest
    else st :: updateFirst rest i t

/-- `PUT /tools/:id`: validate, then `updateOne`; the update result is never
inspected — a successful validation always answers
`"Tool updated successfully"`. -/
def putTool (db : DB) (toolId : Nat) (r : ToolRequest) : PutResult × DB :=
  match validateTool db r with
  | VResult.failure e => (PutResult.badRequest e, db)
  | VResult.success t =>
    (PutResult.ok "Tool updated successfully",
      { db with tools := updateFirst db.tools toolId t })

/-! ## The `GET /tools` tag filter -/

/-- `s.split(',')` on character lists (JS semantics: `""` gives `[""]`,
adjacent separators give empty pieces). -/
def splitOnComma : List Char → List (List Char)
  | [] => [[]]
  | c :: rest =>
    if c == ',' then [] :: splitOnComma rest
    else
      match splitOnComma rest with
      | [] => [[c]]
      | g :: gs => (c :: g) :: gs

def jsSplitComma (s : String) : List String :=
  (splitOnComma s.data).map (fun l => ⟨l⟩)

/-- `tags.split(',').map(t => t.trim()).filter(Boolean)`. -/
def buildTagList (tags : String) : List String :=
  ((jsSplitComma tags).map jsTrim).filter (fun t => !t.data.isEmpty)

/-- The compiled tag criterion of `GET /tools`
(`$or` of `{tags: {$in: regexList}}` and `{'tags.name': {$in: regexList}}`)
evaluated against a stored record's `tags` array under MongoDB semantics:
a regex in an `$in` list matches an array field when some array element is a
string matched by it; the dotted path `tags.name` reaches only sub-document
elements.  An empty term list adds no criterion at all (`if (tagList.length)`),
so every record matches. -/
def matchesTagsCriteria (tagsParam : String) (stored : List TagRepr) : Bool :=
  let tagList := buildTagList tagsParam
  if tagList.isEmpty then true
  else
    (stored.any fun tr =>
      match tr with
      | TagRepr.strTag s => tagList.any fun t => anchoredTest t s
      | TagRepr.docTag _ _ => false) ||
    (stored.any fun tr =>
      match tr with
      | TagRepr.strTag _ => false
      | TagRepr.docTag _ n => tagList.any fun t => anchoredTest t n)

/-! ## The AI search path (`GET /ai/tools`) -/

/-- The structured search parameters produced by the AI collaborator
(`generateSearchParams` guarantees the five array fields, replacing any
non-array with `[]`). -/
structure SearchParams where
  toolNames : List String
  categories : List String
  racks : List String
  statuses : List String
  requestedParameters : List String
deriving DecidableEq

/-- The criteria object the handler assembles.  `none` models an absent key
(no constraint on that field).  `nameIn` carries the literals whose anchored
case-insensitive patterns form the `$in` list; `nameRegexLit` the single
literal of the `$regex` branch. -/
structure AiCriteria where
  nameIn : Option (List String) := none
  nameRegexLit : Option String := none
  categoryIn : Option (List String) := none
  rackIn : Option (List String) := none
  statusIn : Option (List String) := none
deriving DecidableEq

/-- `{category: {$in: [strings]}}` matches only records whose stored category
IS one of the strings (a `{_id, name}` sub-document is not equal to a
string). -/
def catMatchesStr (c : CatRepr) (s : String) : Bool :=
  match c with
  | CatRepr.strCat v => v == s
  | CatRepr.docCat _ _ => false

def criteriaMatches (cr : AiCriteria) (t : NewTool) : Bool :=
  (match cr.nameIn with
   | none => true
   | some names => names.any fun n => anchoredTest n t.name) &&
  (match cr.nameRegexLit with
   | none => true
   | some m => anchoredTest m t.name) &&
  (match cr.categoryIn with
   | none => true
   | some cs => cs.any fun c => catMatchesStr t.category c) &&
  (match cr.rackIn with
   | none => true
   | some rs => rs.contains t.rack) &&
  (match cr.statusIn with
   | none => true
   | some ss => ss.contains t.status)

/-- `db.collection('tools').distinct('name')` (first-occurrence order). -/
def distinctAux : List String → List String → List String
  | [], _ => []
  | x :: xs, seen =>
    if seen.contains x then distinctAux xs seen
    else x :: distinctAux xs (x :: seen)

def distinctVals (l : List String) : List String := distinctAux l []

theorem mem_distinctAux (x : String) (l seen : List String)
    (h : x ∈ distinctAux l seen) : x ∈ l := by
  induction l generalizing seen with
  | nil => simp [distinctAux] at h
  | cons y ys ih =>
    rw [distinctAux] at h
    split at h
    · exact List.mem_cons.mpr (Or.inr (ih _ h))
    · rcases List.mem_cons.mp h with h | h
      · exact List.mem_cons.mpr (Or.inl h)
      · exact List.mem_cons.mpr (Or.inr (ih _ h))

theorem mem_distinctVals (x : String) (l : List String)
    (h : x ∈ distinctVals l) : x ∈ l := mem_distinctAux x l [] h

/-- The layered criteria construction of `GET /ai/tools`: (1) explicit
`toolNames` win and set only the `name` criterion; (2) otherwise, with
`requestedParameters` present, the first known tool name contained in the
lower-cased query is used for an exact name match, and `none` (the early
soft-fail return, before any query) results when there is no such name;
(3) otherwise broad category/rack/status membership filters. -/
def buildAiCriteria (sp : SearchParams) (query : String) (knownNames : List String) :
    Option AiCriteria :=
  if !sp.toolNames.isEmpty then
    some { nameIn := some sp.toolNames }
  else if !sp.requestedParameters.isEmpty then
    match knownNames.find? (fun t => jsIncludes (jsToLower query) (jsToLower t)) with
    | some m => some { nameRegexLit := some m }
    | none => none
  else
    some { categoryIn := if sp.categories.isEmpty then none else some sp.categories
           rackIn := if sp.racks.isEmpty then none else some sp.racks
           statusIn := if sp.statuses.isEmpty then none else some sp.statuses }

/-- The JSON answer of `GET /ai/tools` (`status` is the HTTP status code;
`error` is only ever set by the catch handler, which the model does not
reach). -/
structure AiResponse where
  status : Nat
  tools : List StoredTool
  message : Option String
  error : Option String
deriving DecidableEq

def softFailResponse : AiResponse :=
  { status := 200, tools := [], message := some "Request could not be fulfilled",
    error := none }

/-- The `GET /ai/tools` handler from the point the AI collaborator has
produced its parameters: build criteria (soft-failing early when branch 2
finds no keyword match), query, and soft-fail on an empty result
(the projection only narrows returned fields and is not modelled). -/
def aiGetTools (db : DB) (sp : SearchParams) (query : String) : AiResponse :=
  let knownNames := distinctVals (db.tools.map (fun st => st.data.name))
  match buildAiCriteria sp query knownNames with
  | none => softFailResponse
  | some cr =>
    let found := db.tools.filter (fun st => criteriaMatches cr st.data)
    if found.isEmpty then softFailResponse
    else { status := 200, tools := found, message := none, error := none }

/-! ## Shared dissection lemmas for `validateTool` -/

/-- Anatomy of every successful validation: the matched category document
exists and the assembled record is exactly the `newTool` literal. -/
theorem validateTool_success (db : DB) (r : ToolRequest) (t : NewTool)
    (hv : validateTool db r = VResult.success t) :
    ∃ c, db.categories.find? (fun cd => cd.name == r.category.getD "") = some c ∧
      t = { name := r.name.getD ""
            category := CatRepr.docCat c.id c.name
            quantity := r.quantity.getD 0
            rack := r.rack.getD ""
            status := r.status.getD ""
            purchaseDate := ⟨r.purchaseDate.getD ""⟩
            tags := (db.tags.filter fun d => (r.tags.getD []).contains d.name).map
              (fun d => TagRepr.docTag d.id d.name)
            specifications := none
            maintenance := none } := by
  unfold validateTool at hv
  split at hv
  · simp at hv
  · split at hv
    · simp at hv
    · rename_i catDoc hfind
      dsimp only at hv
      split at hv
      · simp at hv
      · refine ⟨catDoc, hfind, ?_⟩
        cases hv
        rfl

theorem updateFirst_no_match (ts : List StoredTool) (i : Nat) (t : NewTool)
    (h : ∀ st ∈ ts, st.id ≠ i) : updateFirst ts i t = ts := by
  induction ts with
  | nil => rfl
  | cons st rest ih =>
    rw [updateFirst, if_neg]
    · rw [ih fun st' hst' => h st' (by simp [hst'])]
    · have := h st (by simp)
      simp [this]

/-! ## Concrete fixtures used by counterexamples and witnesses -/

def exDb : DB :=
  { categories := [{ id := 1, name := "Power Tools" }]
    tags := [{ id := 1, name := "drill" }, { id := 2, name := "cordless" }]
    tools := [] }

def exReqFull : ToolRequest :=
  { name := some "Cordless Drill", category := some "Power Tools", quantity := some 5
    rack := some "A1", status := some "available", purchaseDate := some "2024-03-15"
    tags := some ["drill"] }

/-- The record `validateTool` assembles from `exReqFull` against `exDb`. -/
def exTool : NewTool :=
  { name := "Cordless Drill", category := CatRepr.docCat 1 "Power Tools", quantity := 5
    rack := "A1", status := "available", purchaseDate := ⟨"2024-03-15"⟩
    tags := [TagRepr.docTag 1 "drill"], specifications := none, maintenance := none }

def exReqEmptyTags : ToolRequest := { exReqFull with tags := some [] }

def exReqNoName : ToolRequest := { exReqFull with name := none }

def exReqNoQuantity : ToolRequest := { exReqFull with quantity := none }

def exReqNoStatus : ToolRequest := { exReqFull with status := none }

def exReqBadCat : ToolRequest := { exReqFull with category := some "Gardening" }

def exReqQty0 : ToolRequest := { exReqFull with quantity := some 0 }

def exReqSpecs : ToolRequest :=
  { exReqFull with specs := some [{ name := "weight", value := "1.2", unit := "kg" }] }

/-! # Claims

Each claim of the specification is settled below; a `counterexample` theorem
exhibits a concrete input refuting a claim as stated, and the accompanying
theorem proves the nearest statement the code satisfies. -/

/-- C1 (counterexample): the claim "for every input with at least one
required field absent (empty string, null, undefined, or an empty array) the
validator fails with a MissingFields error itemizing exactly the absent
fields" is false on the code: an empty `tags` array is truthy in JS, so the
record with `tags: []` (every other field valid) passes validation instead
of failing; moreover inputs missing different fields (name vs. quantity)
receive the identical fixed string `"Missing fields"`, so the error itemizes
nothing. -/
theorem C1_counterexample :
    (validateTool exDb exReqEmptyTags).isValidated = true ∧
    validateTool exDb exReqNoName = VResult.failure "Missing fields" ∧
    validateTool exDb exReqNoQuantity = VResult.failure "Missing fields" ∧
    exReqNoName ≠ exReqNoQuantity := by decide

/-- C1 (amended): when one of the seven destructured fields is JS-falsy
(absent/empty string fields, absent or zero quantity, absent tags array —
the empty array is not falsy), `validateTool` fails with the single generic
message `"Missing fields"` (no itemization), and `POST /tools` rejects with
that error leaving the store unchanged — in particular no category or tag is
created or even looked up before the failure. -/
theorem C1_missing_fields_generic (db : DB) (r : ToolRequest)
    (h : (falsyStr r.name || falsyStr r.category || falsyNum r.quantity || falsyStr r.rack ||
      falsyStr r.status || falsyStr r.purchaseDate || falsyArr r.tags) = true) :
    validateTool db r = VResult.failure "Missing fields" ∧
    postTool db r = (PostResult.badRequest "Missing fields", db) := by
  have hv : validateTool db r = VResult.failure "Missing fields" := by
    unfold validateTool
    rw [h]
    rfl
  refine ⟨hv, ?_⟩
  unfold postTool
  rw [hv]

/-- C1 (witness). -/
theorem C1_missing_fields_generic_witness :
    validateTool exDb exReqNoName = VResult.failure "Missing fields" ∧
    postTool exDb exReqNoName = (PostResult.badRequest "Missing fields", exDb) :=
  C1_missing_fields_generic exDb exReqNoName (by decide)

/-- C2 (counterexample): the claim "for every input whose category name does
not match an existing category document, the normalizer creates that
category ... rather than the operation failing" is false on the code: with
no category named `"Gardening"` in the store, a fully valid request
referencing it is rejected with `"Invalid category"` (the operation fails;
nothing is created). -/
theorem C2_counterexample :
    (∀ c ∈ exDb.categories, c.name ≠ "Gardening") ∧
    validateTool exDb exReqBadCat = VResult.failure "Invalid category" ∧
    postTool exDb exReqBadCat = (PostResult.badRequest "Invalid category", exDb) := by decide

/-- C2 (amended): an input whose category matches no existing category
document is rejected with `"Invalid category"` and nothing is written;
conversely every successfully validated record's category refers to an
existing category document (by lookup, not by creation — the code never
creates categories). -/
theorem C2_invalid_category :
    (∀ (db : DB) (r : ToolRequest),
      (falsyStr r.name || falsyStr r.category || falsyNum r.quantity || falsyStr r.rack ||
        falsyStr r.status || falsyStr r.purchaseDate || falsyArr r.tags) = false →
      db.categories.find? (fun c => c.name == r.category.getD "") = none →
      validateTool db r = VResult.failure "Invalid category" ∧
      postTool db r = (PostResult.badRequest "Invalid category", db)) ∧
    (∀ (db : DB) (r : ToolRequest) (t : NewTool),
      validateTool db r = VResult.success t →
      ∃ c ∈ db.categories, c.name = r.category.getD "" ∧
        t.category = CatRepr.docCat c.id c.name) := by
  constructor
  · intro db r hfields hfind
    have hv : validateTool db r = VResult.failure "Invalid category" := by
      unfold validateTool
      rw [hfields]
      simp only [Bool.false_eq_true, if_false]
      rw [hfind]
    refine ⟨hv, ?_⟩
    unfold postTool
    rw [hv]
  · intro db r t hv
    obtain ⟨c, hfind, ht⟩ := validateTool_success db r t hv
    refine ⟨c, List.mem_of_find?_eq_some hfind, ?_, ?_⟩
    · have := List.find?_some hfind
      exact beq_iff_eq.mp this
    · rw [ht]

/-- C2 (witness). -/
theorem C2_invalid_category_witness :
    validateTool exDb exReqBadCat = VResult.failure "Invalid category" ∧
    postTool exDb exReqBadCat = (PostResult.badRequest "Invalid category", exDb) :=
  C2_invalid_category.1 exDb exReqBadCat (by decide) (by decide)

/-- C3 (counterexample): the claim that the assembled record carries the
plain category name string, bare tag name strings, a `status` defaulted to
`"available"`, and a `maintenance` defaulted to `[]` is false on the code:
at a concrete passing input the record embeds the category as the
`{_id, name}` sub-document and the tags as tag documents (not strings), an
input without `status` is rejected as missing rather than defaulted, and the
built record has no `maintenance` key at all. -/
theorem C3_counterexample :
    validateTool exDb exReqFull = VResult.success exTool ∧
    exTool.category = CatRepr.docCat 1 "Power Tools" ∧
    exTool.category ≠ CatRepr.strCat "Power Tools" ∧
    exTool.tags = [TagRepr.docTag 1 "drill"] ∧
    exTool.tags ≠ [TagRepr.strTag "drill"] ∧
    validateTool exDb exReqNoStatus = VResult.failure "Missing fields" ∧
    exTool.maintenance = none := by decide

/-- C3 (amended): every record assembled by a successful validation embeds
the matched category document as a `{_id, name}` sub-document, embeds the
matched tag documents, takes `status` verbatim from the input (it is
required — never defaulted), and carries no `maintenance` key. -/
theorem C3_canonical_record (db : DB) (r : ToolRequest) (t : NewTool)
    (hv : validateTool db r = VResult.success t) :
    (∃ c, db.categories.find? (fun cd => cd.name == r.category.getD "") = some c ∧
      t.category = CatRepr.docCat c.id c.name) ∧
    t.tags = (db.tags.filter fun d => (r.tags.getD []).contains d.name).map
      (fun d => TagRepr.docTag d.id d.name) ∧
    t.status = r.status.getD "" ∧
    t.maintenance = none := by
  obtain ⟨c, hfind, ht⟩ := validateTool_success db r t hv
  subst ht
  exact ⟨⟨c, hfind, rfl⟩, rfl, rfl, rfl⟩

/-- C3 (witness). -/
theorem C3_canonical_record_witness :
    exTool.tags = (exDb.tags.filter fun d => (exReqFull.tags.getD []).contains d.name).map
      (fun d => TagRepr.docTag d.id d.name) ∧
    exTool.status = exReqFull.status.getD "" ∧
    exTool.maintenance = none :=
  (fun h => ⟨h.2.1, h.2.2.1, h.2.2.2⟩)
    (C3_canonical_record exDb exReqFull exTool (by decide))

/-- C4 (counterexample): the claim that specification data supplied under the
alias `specs` survives into the normalized output as `specifications` is
false on the code: `validateTool` never reads any of the three fields, and
the record it assembles has no specifications key — at a concrete input with
`specs` present and validation succeeding, the output's `specifications` is
`none` and differs from the supplied data. -/
theorem C4_counterexample :
    exReqSpecs.specs = some [{ name := "weight", value := "1.2", unit := "kg" }] ∧
    exReqSpecs.specifications = none ∧
    validateTool exDb exReqSpecs = VResult.success exTool ∧
    exTool.specifications = none ∧
    exTool.specifications ≠ exReqSpecs.specs := by decide

/-- C4 (amended): specification data is discarded entirely: whatever the
input supplies under `specifications`, `specs` or `specification`, the
record assembled by a successful validation contains no specifications key
(`none`). -/
theorem C4_specs_discarded (db : DB) (r : ToolRequest) (t : NewTool)
    (hv : validateTool db r = VResult.success t) :
    t.specifications = none := by
  obtain ⟨c, hfind, ht⟩ := validateTool_success db r t hv
  rw [ht]

/-- C4 (witness). -/
theorem C4_specs_discarded_witness : exTool.specifications = none :=
  C4_specs_discarded exDb exReqSpecs exTool (by decide)

/-- C5: with a non-empty `toolNames` list, the compiled AI criteria constrain
only the `name` field, by the `$in` disjunction of the anchored
whitespace-tolerant case-insensitive exact patterns of the listed names
(matching depends only on a record's name); in particular the pattern for
`"Drill"` matches `"drill"`, `" Drill "` and `"DRILL"` but not
`"Drill Press"`. -/
theorem C5_toolnames_exact (sp : SearchParams) (q : String) (kn : List String)
    (h : sp.toolNames ≠ []) :
    buildAiCriteria sp q kn =
      some { nameIn := some sp.toolNames, nameRegexLit := none, categoryIn := none,
             rackIn := none, statusIn := none } ∧
    (∀ t : NewTool,
      criteriaMatches { nameIn := some sp.toolNames } t =
        sp.toolNames.any fun n => anchoredTest n t.name) ∧
    (∀ t t' : NewTool, t.name = t'.name →
      criteriaMatches { nameIn := some sp.toolNames } t =
        criteriaMatches { nameIn := some sp.toolNames } t') ∧
    anchoredTest "Drill" "drill" = true ∧ anchoredTest "Drill" " Drill " = true ∧
    anchoredTest "Drill" "DRILL" = true ∧ anchoredTest "Drill" "Drill Press" = false := by
  have hne : sp.toolNames.isEmpty = false := by
    cases hn : sp.toolNames with
    | nil => exact absurd hn h
    | cons a l => rfl
  refine ⟨?_, ?_, ?_, by decide, by decide, by decide, by decide⟩
  · unfold buildAiCriteria
    rw [hne]
    rfl
  · intro t
    unfold criteriaMatches
    simp
  · intro t t' he
    unfold criteriaMatches
    rw [he]

/-- C5 (witness). -/
theorem C5_toolnames_exact_witness :
    buildAiCriteria ⟨["Drill"], [], [], [], []⟩ "" [] =
      some { nameIn := some ["Drill"], nameRegexLit := none, categoryIn := none,
             rackIn := none, statusIn := none } ∧
    anchoredTest "Drill" "drill" = true :=
  ⟨(C5_toolnames_exact ⟨["Drill"], [], [], [], []⟩ "" [] (by decide)).1,
   (C5_toolnames_exact ⟨["Drill"], [], [], [], []⟩ "" [] (by decide)).2.2.2.1⟩

/-- C6: with empty `toolNames`, non-empty `requestedParameters`, and no known
tool name contained in the lower-cased query, `GET /ai/tools` answers the
soft-fail shape — HTTP 200, empty `tools`, the message
`"Request could not be fulfilled"`, and no error — rather than an error
response. -/
theorem C6_soft_fail (db : DB) (sp : SearchParams) (q : String)
    (hnames : sp.toolNames = []) (hparams : sp.requestedParameters ≠ [])
    (hnomatch : ∀ st ∈ db.tools,
      jsIncludes (jsToLower q) (jsToLower st.data.name) = false) :
    aiGetTools db sp q = softFailResponse ∧
    softFailResponse.status = 200 ∧ softFailResponse.tools = [] ∧
    softFailResponse.message = some "Request could not be fulfilled" ∧
    softFailResponse.error = none := by
  refine ⟨?_, rfl, rfl, rfl, rfl⟩
  have hp : sp.requestedParameters.isEmpty = false := by
    cases hn : sp.requestedParameters with
    | nil => exact absurd hn hparams
    | cons a l => rfl
  have hfind : (distinctVals (db.tools.map fun st => st.data.name)).find?
      (fun t => jsIncludes (jsToLower q) (jsToLower t)) = none := by
    rw [List.find?_eq_none]
    intro x hx
    have hx' := mem_distinctVals x _ hx
    rw [List.mem_map] at hx'
    obtain ⟨st, hst, rfl⟩ := hx'
    rw [hnomatch st hst]
    simp
  have hb : buildAiCriteria sp q (distinctVals (db.tools.map fun st => st.data.name)) =
      none := by
    unfold buildAiCriteria
    rw [hnames]
    simp only [List.isEmpty_nil, Bool.not_true, Bool.false_eq_true, if_false]
    rw [hp]
    simp only [Bool.not_false, if_true]
    rw [hfind]
  unfold aiGetTools
  dsimp only
  rw [hb]

/-- C6 (witness). -/
theorem C6_soft_fail_witness :
    aiGetTools exDb ⟨[], [], [], [], ["weight"]⟩ "what is the weight" = softFailResponse :=
  (C6_soft_fail exDb ⟨[], [], [], [], ["weight"]⟩ "what is the weight" rfl (by decide)
    (by intro st hst; cases hst)).1

/-- C7: for every `tags` query parameter whose trimmed term list is
non-empty, the compiled `$or` filter matches a stored record exactly when
some stored tag — whether a bare string element or a `{name}` sub-document —
has its text matched by the anchored case-insensitive exact pattern of some
term; matching is therefore indifferent to which storage shape an era wrote. -/
theorem C7_tags_both_shapes (p : String) (stored : List TagRepr)
    (hne : buildTagList p ≠ []) :
    matchesTagsCriteria p stored = true ↔
      ∃ tr ∈ stored, ∃ t ∈ buildTagList p, anchoredTest t (tagReprName tr) = true := by
  unfold matchesTagsCriteria
  dsimp only
  have hne' : (buildTagList p).isEmpty = false := by
    cases hn : buildTagList p with
    | nil => exact absurd hn hne
    | cons a l => rfl
  rw [hne']
  simp only [Bool.false_eq_true, if_false, Bool.or_eq_true, List.any_eq_true]
  constructor
  · rintro (⟨tr, htr, hm⟩ | ⟨tr, htr, hm⟩)
    · cases tr with
      | strTag s =>
        rw [List.any_eq_true] at hm
        obtain ⟨t, ht, hmt⟩ := hm
        exact ⟨TagRepr.strTag s, htr, t, ht, hmt⟩
      | docTag i n => cases hm
    · cases tr with
      | strTag s => cases hm
      | docTag i n =>
        rw [List.any_eq_true] at hm
        obtain ⟨t, ht, hmt⟩ := hm
        exact ⟨TagRepr.docTag i n, htr, t, ht, hmt⟩
  · rintro ⟨tr, htr, t, ht, hmt⟩
    cases tr with
    | strTag s =>
      exact Or.inl ⟨TagRepr.strTag s, htr, List.any_eq_true.mpr ⟨t, ht, hmt⟩⟩
    | docTag i n =>
      exact Or.inr ⟨TagRepr.docTag i n, htr, List.any_eq_true.mpr ⟨t, ht, hmt⟩⟩

/-- C7 (witness): the term `"drill"` of the parameter `"drill, saw"` matches
a record storing `{name := "Drill"}` sub-documents as well as one storing
bare `" DRILL "` strings. -/
theorem C7_tags_both_shapes_witness :
    matchesTagsCriteria "drill, saw" [TagRepr.docTag 1 "Drill"] = true ∧
    matchesTagsCriteria "drill, saw" [TagRepr.strTag " DRILL "] = true :=
  ⟨(C7_tags_both_shapes "drill, saw" [TagRepr.docTag 1 "Drill"] (by decide)).mpr
      ⟨TagRepr.docTag 1 "Drill", by decide, "drill", by decide, by decide⟩,
   (C7_tags_both_shapes "drill, saw" [TagRepr.strTag " DRILL "] (by decide)).mpr
      ⟨TagRepr.strTag " DRILL ", by decide, "drill", by decide, by decide⟩⟩

/-- C8 (counterexample): the claim "for every input string the pattern
matches exactly the strings equal to the input after trimming surrounding
whitespace and case-folding" is false for inputs that themselves carry
surrounding whitespace: for the input `" x"`, the subject `"x"` is equal to
the input after trimming and case-folding, yet the anchored pattern (whose
body contains the literal leading space) does not match it. -/
theorem C8_counterexample :
    anchoredTest " x" "x" = false ∧
    jsToLower (jsTrim "x") = jsToLower (jsTrim " x") := by decide

/-- C8 (amended): for every input string without leading or trailing
whitespace — including strings full of regex metacharacters — the produced
anchored case-insensitive pattern matches a subject exactly when the subject
equals the input after trimming and case-folding; in particular it never
matches a mere substring occurrence and no metacharacter escapes into
wildcard behaviour. -/
theorem C8_escape_exact (t s : String) (ht : jsTrim t = t) :
    anchoredTest t s = true ↔ jsToLower (jsTrim s) = jsToLower t := by
  have ht' : trimL t.data = t.data := congrArg String.data ht
  rw [anchoredTest_trimmed_iff t s ht']
  have e1 : (jsToLower (jsTrim s)).data = (trimL s.data).map lowerChar := rfl
  have e2 : (jsToLower t).data = t.data.map lowerChar := rfl
  constructor
  · intro h
    apply String.ext
    rw [e1, e2, h]
  · intro h
    have h2 := congrArg String.data h
    rw [e1, e2] at h2
    exact h2

/-- C8 (witness): the metacharacter literal `"a+b"` (trim-free) matches
`" A+B "` — whitespace-padded, case-changed — and the `+` stays literal. -/
theorem C8_escape_exact_witness :
    jsTrim "a+b" = "a+b" ∧ anchoredTest "a+b" " A+B " = true :=
  ⟨by decide, (C8_escape_exact "a+b" " A+B " (by decide)).mpr (by decide)⟩

/-- C9: a request with `quantity = 0` and every other required field present
and valid is rejected by the truthiness check as `"Missing fields"` (JS `!0`
is `true`), so such a tool can be created by neither `POST /tools` nor
`PUT /tools/:id`; both endpoints answer 400 and leave the store unchanged. -/
theorem C9_quantity_zero (db : DB) (r : ToolRequest) (i : Nat)
    (hq : r.quantity = some 0)
    (_hname : falsyStr r.name = false) (_hcat : falsyStr r.category = false)
    (_hrack : falsyStr r.rack = false) (_hstat : falsyStr r.status = false)
    (_hdate : falsyStr r.purchaseDate = false) (_htags : falsyArr r.tags = false) :
    validateTool db r = VResult.failure "Missing fields" ∧
    postTool db r = (PostResult.badRequest "Missing fields", db) ∧
    putTool db i r = (PutResult.badRequest "Missing fields", db) := by
  have hcond : (falsyStr r.name || falsyStr r.category || falsyNum r.quantity ||
      falsyStr r.rack || falsyStr r.status || falsyStr r.purchaseDate ||
      falsyArr r.tags) = true := by
    rw [hq]
    simp [falsyNum]
  have hv : validateTool db r = VResult.failure "Missing fields" := by
    unfold validateTool
    rw [hcond]
    rfl
  refine ⟨hv, ?_, ?_⟩
  · unfold postTool
    rw [hv]
  · unfold putTool
    rw [hv]

/-- C9 (witness). -/
theorem C9_quantity_zero_witness :
    validateTool exDb exReqQty0 = VResult.failure "Missing fields" ∧
    postTool exDb exReqQty0 = (PostResult.badRequest "Missing fields", exDb) ∧
    putTool exDb 7 exReqQty0 = (PutResult.badRequest "Missing fields", exDb) :=
  C9_quantity_zero exDb exReqQty0 7 rfl (by decide) (by decide) (by decide) (by decide)
    (by decide) (by decide)

/-- C10: `PUT /tools/:id` with a valid body and an id matching no stored
document still answers the success message `"Tool updated successfully"`
while the store is unchanged — `updateOne`'s matched count is never
inspected, so at the public interface this is indistinguishable from a real
update. -/
theorem C10_put_nonexistent (db : DB) (i : Nat) (r : ToolRequest) (t : NewTool)
    (hv : validateTool db r = VResult.success t)
    (hno : ∀ st ∈ db.tools, st.id ≠ i) :
    putTool db i r = (PutResult.ok "Tool updated successfully", db) := by
  unfold putTool
  rw [hv]
  dsimp only
  rw [updateFirst_no_match db.tools i t hno]

/-- C10 (witness). -/
theorem C10_put_nonexistent_witness :
    putTool exDb 42 exReqFull = (PutResult.ok "Tool updated successfully", exDb) :=
  C10_put_nonexistent exDb 42 exReqFull exTool (by decide)
    (by intro st hst; cases hst)
